import Mathlib

/-!
Shallow embedding of the fracticons deterministic avatar pipeline
(SeededRandom, seed derivation, fractal kernels, grid rasterizer,
parameter generation with entropy filtering, color mapping and the PNG
encoder), translated from the TypeScript sources, together with theorems
checking the specification claims.  JS doubles are embedded as exact
rationals; JS 32-bit integer operations are embedded as naturals with
explicit reduction mod 2^32 (x << k becomes x * 2^k % 2^32, x >>> k
becomes x / 2^k, signed bit patterns are represented by their unsigned
values, which xor, shift and sum-mod-2^32 treat identically).
-/

namespace Fracticons

/-- Modulus for unsigned 32-bit words. -/
def M32 : Nat := 4294967296

/-- Two-word state of the xorshift128+ generator (class SeededRandom in
src/random.ts).  Words are unsigned 32-bit, embedded as naturals. -/
structure RandState where
  state0 : Nat
  state1 : Nat
  deriving DecidableEq

/-- State update of one next() call (src/random.ts lines 35-50), translated
statement by statement: s1 ^= s1 << 23; s1 ^= s1 >>> 17; s1 ^= s0;
s1 ^= s0 >>> 26; the new state is (old state1, final s1). -/
def nextStep (s : RandState) : RandState :=
  let s1a := s.state0 ^^^ (s.state0 * 2 ^ 23 % M32)
  let s1b := s1a ^^^ (s1a / 2 ^ 17)
  let s1c := s1b ^^^ s.state1
  let s1d := s1c ^^^ (s.state1 / 2 ^ 26)
  ⟨s.state1, s1d⟩

/-- Numerator of the value returned by next(): the code computes
(this.state0 + this.state1) >>> 0 after the state update, i.e. the sum of
the two NEW state words reduced mod 2^32. -/
def nextNum (s : RandState) : Nat :=
  ((nextStep s).state0 + (nextStep s).state1) % M32

/-- Value returned by next(): nextNum divided by 0x100000000, an exact
rational in the unit interval (the JS division of a uint32 by 2^32 is
exact in binary64). -/
def nextVal (s : RandState) : ℚ :=
  (nextNum s : ℚ) / (M32 : ℚ)

/-- range(min, max) from src/random.ts: min + next() * (max - min), consuming
one draw.  Returns the value and the advanced state. -/
def rangeRand (lo hi : ℚ) (s : RandState) : ℚ × RandState :=
  (lo + nextVal s * (hi - lo), nextStep s)

/-- int(min, max) from src/random.ts: Math.floor(range(min, max)). -/
def intRand (lo hi : ℚ) (s : RandState) : ℤ × RandState :=
  (⌊(rangeRand lo hi s).1⌋, (rangeRand lo hi s).2)

/-- Fallback constant used for state0 when seeds[0] is missing or zero. -/
def FALLBACK0 : Nat := 0x12345678

/-- Fallback constant used for state1 when seeds[1] is missing or zero. -/
def FALLBACK1 : Nat := 0x87654321

/-- Constructor mixing loop (src/random.ts lines 20-23): for each seed beyond
the first two, state0 ^= seed followed by one discarded next() draw. -/
def foldSeeds : List Nat → RandState → RandState
  | [], s => s
  | x :: rest, s => foldSeeds rest (nextStep ⟨s.state0 ^^^ x, s.state1⟩)

/-- Constructor warm-up loop (src/random.ts lines 26-28): n discarded
next() draws. -/
def warmup : Nat → RandState → RandState
  | 0, s => s
  | n + 1, s => warmup n (nextStep s)

/-- Constructor of SeededRandom (src/random.ts lines 14-29).  JS
seeds[i] || fallback is modelled by the value-or-zero of getD together
with the zero test (0 and a missing element are the falsy cases for
unsigned words). -/
def mkState (seeds : List Nat) : RandState :=
  let a := seeds.getD 0 0
  let b := seeds.getD 1 0
  let init : RandState := ⟨if a = 0 then FALLBACK0 else a, if b = 0 then FALLBACK1 else b⟩
  warmup 10 (foldSeeds (seeds.drop 2) init)

/-- Invariant carried by every SeededRandom instance: both state words are
unsigned 32-bit and the state is not the all-zero fixed point. -/
def GoodState (s : RandState) : Prop :=
  s.state0 < M32 ∧ s.state1 < M32 ∧ s ≠ ⟨0, 0⟩

/-- Claim C1 reads the update formula with each shift applied to the stated
original operand: s1_new = s0 ^ (s0<<23) ^ (s0>>>17) ^ s1 ^ (s1>>>26) on the
OLD state words. -/
def claimNextS1 (s0 s1 : Nat) : Nat :=
  s0 ^^^ (s0 * 2 ^ 23 % M32) ^^^ (s0 / 2 ^ 17) ^^^ s1 ^^^ (s1 / 2 ^ 26)

/-- Full next() step as claim C1 words it: new state (s1_old, claimNextS1),
return value (s0_old + s1_old) mod 2^32 over 2^32 where s0, s1 are the state
words before the call. -/
def claimNextPair (s : RandState) : RandState × ℚ :=
  (⟨s.state1, claimNextS1 s.state0 s.state1⟩,
    (((s.state0 + s.state1) % M32 : Nat) : ℚ) / (M32 : ℚ))

/-- Amended update formula: the >>> 17 shift applies to the intermediate
word u = s0 ^ (s0 << 23), not to the original s0; the remaining xors are as
the claim states. -/
def amendedNextS1 (s0 s1 : Nat) : Nat :=
  let u := s0 ^^^ (s0 * 2 ^ 23 % M32)
  u ^^^ (u / 2 ^ 17) ^^^ s1 ^^^ (s1 / 2 ^ 26)

/-- Seed derivation from raw hash bytes (hashBytesToSeeds, index file lines
32-42): consume 4 bytes at a time as a big-endian unsigned 32-bit integer
while i + 4 <= length, so a trailing chunk of fewer than 4 bytes is
dropped. -/
def hashBytesToSeeds : List Nat → List Nat
  | b0 :: b1 :: b2 :: b3 :: rest =>
      (b0 * 2 ^ 24 + b1 * 2 ^ 16 + b2 * 2 ^ 8 + b3) :: hashBytesToSeeds rest
  | _ => []

/-- parseInt(chunk, 16) on a list of hex digit values (each < 16): big-endian
accumulation. -/
def parseHexDigits (ds : List Nat) : Nat :=
  ds.foldl (fun a d => 16 * a + d) 0

/-- Seed derivation from a hex string (hashToNumbers, src/hash.ts lines
127-134): substring(i, i+8) clamps at the end of the string, so the final
chunk may hold fewer than 8 hex digits and is still parsed and kept.
The string is modelled as its list of hex digit values. -/
def hashToNumbers : List Nat → List Nat
  | [] => []
  | d :: rest => parseHexDigits ((d :: rest).take 8) :: hashToNumbers ((d :: rest).drop 8)
termination_by l => l.length
decreasing_by
  simp [List.length_drop]
  omega

/-- Claim-side reading of one 4-byte chunk as an unsigned 32-bit big-endian
integer (the first four bytes of the given list). -/
def be32word (l : List Nat) : Nat :=
  l.getD 0 0 * 2 ^ 24 + l.getD 1 0 * 2 ^ 16 + l.getD 2 0 * 2 ^ 8 + l.getD 3 0

/-- Julia kernel (juliaIteration in src/fractal.ts): the loop is driven by the
remaining fuel, returning 0 at the first bailout check that fires and adding
one for every completed update, so the total equals the first escaping
iteration index, or maxIterations when the fuel runs out. -/
def juliaLoop (cx cy : ℚ) : ℚ → ℚ → ℕ → ℕ
  | _, _, 0 => 0
  | zx, zy, n + 1 =>
    if 4 < zx * zx + zy * zy then 0
    else juliaLoop cx cy (zx * zx - zy * zy + cx) (2 * zx * zy + cy) n + 1

/-- juliaIteration(px, py, cx, cy, maxIterations): start at z = (px, py). -/
def juliaIteration (px py cx cy : ℚ) (maxIterations : ℕ) : ℕ :=
  juliaLoop cx cy px py maxIterations

/-- Mandelbrot kernel loop (mandelbrotIteration in src/fractal.ts): constant
is the plane point, z starts at 0. -/
def mandelbrotLoop (px py : ℚ) : ℚ → ℚ → ℕ → ℕ
  | _, _, 0 => 0
  | zx, zy, n + 1 =>
    if 4 < zx * zx + zy * zy then 0
    else mandelbrotLoop px py (zx * zx - zy * zy + px) (2 * zx * zy + py) n + 1

/-- mandelbrotIteration(px, py, maxIterations). -/
def mandelbrotIteration (px py : ℚ) (maxIterations : ℕ) : ℕ :=
  mandelbrotLoop px py 0 0 maxIterations

/-- Burning-ship kernel loop (burningShipIteration in src/fractal.ts): the
imaginary update term takes an absolute value, zy <- |2 zx zy| + py; the real
update term zx*zx - zy*zy + px is NOT wrapped in an absolute value. -/
def burningShipLoop (px py : ℚ) : ℚ → ℚ → ℕ → ℕ
  | _, _, 0 => 0
  | zx, zy, n + 1 =>
    if 4 < zx * zx + zy * zy then 0
    else burningShipLoop px py (zx * zx - zy * zy + px) (|2 * zx * zy| + py) n + 1

/-- burningShipIteration(px, py, maxIterations). -/
def burningShipIteration (px py : ℚ) (maxIterations : ℕ) : ℕ :=
  burningShipLoop px py 0 0 maxIterations

/-- Tricorn kernel loop (tricornIteration in src/fractal.ts): conjugate before
squaring, zy <- -(2 zx zy) + py. -/
def tricornLoop (px py : ℚ) : ℚ → ℚ → ℕ → ℕ
  | _, _, 0 => 0
  | zx, zy, n + 1 =>
    if 4 < zx * zx + zy * zy then 0
    else tricornLoop px py (zx * zx - zy * zy + px) (-(2 * zx * zy) + py) n + 1

/-- tricornIteration(px, py, maxIterations). -/
def tricornIteration (px py : ℚ) (maxIterations : ℕ) : ℕ :=
  tricornLoop px py 0 0 maxIterations

/-- Generic escape-time loop with the shared bailout test 4 < zx^2 + zy^2 and
the shared counting convention, parameterized by the update map.  Used to
state that two kernels differ only in their update terms. -/
def escapeLoop (step : ℚ → ℚ → ℚ × ℚ) : ℚ → ℚ → ℕ → ℕ
  | _, _, 0 => 0
  | zx, zy, n + 1 =>
    if 4 < zx * zx + zy * zy then 0
    else escapeLoop step (step zx zy).1 (step zx zy).2 n + 1

/-- Burning-ship kernel as claim C5 words it: before each update the absolute
value is taken of BOTH the real and the imaginary update terms. -/
def claimBurningShip (px py : ℚ) (maxIterations : ℕ) : ℕ :=
  escapeLoop (fun zx zy => (|zx * zx - zy * zy| + px, |2 * zx * zy| + py)) 0 0 maxIterations

/-- The four fractal families of src/fractal.ts. -/
inductive FractalType where
  | julia
  | mandelbrot
  | burningShip
  | tricorn
  deriving DecidableEq

/-- FractalParams of src/fractal.ts. -/
structure FractalParams where
  cx : ℚ
  cy : ℚ
  zoom : ℚ
  maxIterations : ℕ
  colorOffset : ℚ
  fractalType : FractalType
  deriving DecidableEq

/-- Iteration count of one cell of the grid (the switch inside
generateFractalGrid): plane coordinates px = (x / size - 0.5) * zoom,
py = (y / size - 0.5) * zoom, then the kernel of the chosen family. -/
def iterationsFor (params : FractalParams) (size x y : ℕ) : ℕ :=
  let px := ((x : ℚ) / (size : ℚ) - 0.5) * params.zoom
  let py := ((y : ℚ) / (size : ℚ) - 0.5) * params.zoom
  match params.fractalType with
  | .mandelbrot => mandelbrotIteration (px + params.cx) (py + params.cy) params.maxIterations
  | .burningShip => burningShipIteration (px + params.cx) (py + params.cy) params.maxIterations
  | .tricorn => tricornIteration (px + params.cx) (py + params.cy) params.maxIterations
  | .julia => juliaIteration px py params.cx params.cy params.maxIterations

/-- Row-filling loop of generateFractalGrid: for x below the bound, write the
computed value at positions x and size-1-x (in that order, matching
row[x] = iterations; row[size-1-x] = iterations), processing x in the same
ascending order as the source (writes of the recursive call happen first). -/
def fillRow (f : ℕ → ℕ) (size : ℕ) : ℕ → List ℕ → List ℕ
  | 0, row => row
  | x + 1, row => ((fillRow f size x row).set x (f x)).set (size - 1 - x) (f x)

/-- generateFractalGrid(size, params) from src/fractal.ts: one row per y, the
left half (x below ceil(size/2)) computed and mirrored into column
size-1-x.  The JS sparse array of length size is modelled as a list
initialised with zeros; every position below size is written by the loop. -/
def generateFractalGrid (size : ℕ) (params : FractalParams) : List (List ℕ) :=
  (List.range size).map
    (fun y => fillRow (fun x => iterationsFor params size x y) size ((size + 1) / 2)
      (List.replicate size 0))

/-- One named Julia preset constant. -/
structure JuliaPreset where
  name : String
  cx : ℚ
  cy : ℚ
  deriving DecidableEq

/-- JULIA_PRESETS of src/fractal.ts in object-key insertion order (the order
Object.keys returns). -/
def JULIA_PRESETS : List JuliaPreset :=
  [⟨"dendrite", 0, 1⟩,
   ⟨"galaxy", -0.4, 0.6⟩,
   ⟨"lightning", -0.70176, -0.3842⟩,
   ⟨"seahorse", -0.75, 0.11⟩,
   ⟨"snowflake", -0.1, 0.651⟩,
   ⟨"spiral", -0.8, 0.156⟩,
   ⟨"starfish", -0.374004139, 0.659792175⟩,
   ⟨"sun", 0.285, 0.01⟩,
   ⟨"rabbit", -0.123, 0.745⟩,
   ⟨"siegel", -0.391, -0.587⟩]

/-- The preset index draw of generateCandidateParams:
rng.int(0, presetKeys.length - 1), i.e. int(0, 9) for the 10 presets.
Returns the JS array index (Math.floor of a value in [0, 9)) and the advanced
state. -/
def juliaBasePick (s : RandState) : Nat × RandState :=
  let r := intRand 0 ((JULIA_PRESETS.length : ℚ) - 1) s
  (r.1.toNat, r.2)

/-- Common tail of candidate/explicit/preset parameter generation:
zoom = range(1.5, 3.0), maxIterations = 50 + int(0, 50),
colorOffset = range(0, 1), in that draw order. -/
def finishCandidate (ft : FractalType) (cx cy : ℚ) (s : RandState) :
    FractalParams × RandState :=
  let z := rangeRand 1.5 3.0 s
  let mi := intRand 0 50 z.2
  let off := rangeRand 0 1 mi.2
  (⟨cx, cy, z.1, 50 + mi.1.toNat, off.1, ft⟩, off.2)

/-- generateCandidateParams(rng, fractalType) from src/fractal.ts: julia picks
a base preset by juliaBasePick and perturbs both parts by range(-0.08, 0.08);
other families draw the constant from range(-0.5, 0.5) twice. -/
def generateCandidateParams (ft : FractalType) (s : RandState) :
    FractalParams × RandState :=
  match ft with
  | .julia =>
    let pick := juliaBasePick s
    let base := JULIA_PRESETS.getD pick.1 ⟨"", 0, 0⟩
    let dx := rangeRand (-0.08) 0.08 pick.2
    let dy := rangeRand (-0.08) 0.08 dx.2
    finishCandidate ft (base.cx + dx.1) (base.cy + dy.1) dy.2
  | _ =>
    let rx := rangeRand (-0.5) 0.5 s
    let ry := rangeRand (-0.5) 0.5 rx.2
    finishCandidate ft rx.1 ry.1 ry.2

/-- Result of calculateGridEntropy. -/
structure EntropyResult where
  score : ℚ
  inSetFrac : ℚ
  uniqueValues : ℕ
  deriving DecidableEq

/-- calculateGridEntropy(grid, maxIterations) from src/fractal.ts.  The
Map-based tally of iteration values is modelled by count (cells equal to
maxIterations) and dedup length (number of distinct values). -/
def calculateGridEntropy (grid : List (List ℕ)) (maxIterations : ℕ) :
    EntropyResult :=
  let cells := grid.flatten
  let inSetCount := cells.count maxIterations
  let total := grid.length * (grid.getD 0 []).length
  let uniqueValues := cells.dedup.length
  let inSetFrac : ℚ := (inSetCount : ℚ) / (total : ℚ)
  let balanceScore : ℚ :=
    if inSetFrac < 0.1 ∨ 0.9 < inSetFrac then 0.1
    else if 0.2 ≤ inSetFrac ∧ inSetFrac ≤ 0.6 then 1
    else 0.5
  let varietyScore : ℚ := min ((uniqueValues : ℚ) / 15) 1
  ⟨balanceScore * 0.6 + varietyScore * 0.4, inSetFrac, uniqueValues⟩

/-- The acceptance test of the quality-filter loop: in-set ratio at most 0.25
and at least 8 distinct iteration values, measured on a 32x32 probe grid. -/
def passesQuality (p : FractalParams) : Bool :=
  let e := calculateGridEntropy (generateFractalGrid 32 p) p.maxIterations
  decide (e.inSetFrac ≤ 0.25) && decide (8 ≤ e.uniqueValues)

/-- The attempt loop of generateFractalParams: up to the given number of
attempts, generate a candidate, probe it, return it when it passes; when all
attempts are spent, call generateCandidateParams once more and return that
fresh draw (the source comment says "return last generated params", but the
code generates new ones). -/
def tryAttempts (ft : FractalType) : ℕ → RandState → FractalParams × RandState
  | 0, s => generateCandidateParams ft s
  | n + 1, s =>
    let r := generateCandidateParams ft s
    if passesQuality r.1 then r else tryAttempts ft n r.2

/-- FractalGenerationOptions of src/fractal.ts; fields are optional in JS.  -/
structure FractalGenOptions where
  fractalType : Option FractalType
  preset : Option String
  c : Option (ℚ × ℚ)
  skipEntropyCheck : Bool

/-- The JS truthiness test preset && JULIA_PRESETS[preset]: an absent or
empty name is falsy, otherwise look the name up in the preset table. -/
def presetLookup : Option String → Option JuliaPreset
  | none => none
  | some nm => if nm = "" then none else JULIA_PRESETS.find? (fun p => p.name == nm)

/-- generateFractalParams(rng, options) from src/fractal.ts: explicit c first,
then a valid preset, then skipEntropyCheck, then the 10-attempt quality
loop. -/
def generateFractalParams (opts : FractalGenOptions) (s : RandState) :
    FractalParams × RandState :=
  let ft := opts.fractalType.getD .julia
  match opts.c with
  | some cc => finishCandidate ft cc.1 cc.2 s
  | none =>
    match presetLookup opts.preset with
    | some p => finishCandidate ft p.cx p.cy s
    | none =>
      if opts.skipEntropyCheck then generateCandidateParams ft s
      else tryAttempts ft 10 s

/-- State advance of one candidate generation. -/
def candStep (ft : FractalType) (s : RandState) : RandState :=
  (generateCandidateParams ft s).2

/-- PRNG state after n candidate generations. -/
def attemptState (ft : FractalType) : ℕ → RandState → RandState
  | 0, s => s
  | n + 1, s => attemptState ft n (candStep ft s)

/-- The (n+1)-st candidate drawn from starting state s (0-based: candidateAt 0
is the first attempt, candidateAt 9 the tenth, candidateAt 10 an eleventh
fresh draw). -/
def candidateAt (ft : FractalType) (n : ℕ) (s : RandState) : FractalParams :=
  (generateCandidateParams ft (attemptState ft n s)).1

/-- RGB triple as produced by the color code (JS numbers after Math.round,
hence integers). -/
structure RGB where
  r : ℤ
  g : ℤ
  b : ℤ
  deriving DecidableEq

/-- ColorPalette of src/color.ts. -/
structure ColorPalette where
  colors : List RGB
  background : RGB
  deriving DecidableEq

/-- JS Math.round: round half toward positive infinity. -/
def jsRound (x : ℚ) : ℤ := ⌊x + 0.5⌋

/-- Truncation toward zero, the rounding JS % uses. -/
def jsTrunc (x : ℚ) : ℤ := if 0 ≤ x then ⌊x⌋ else ⌈x⌉

/-- JS remainder x % 1: x minus its truncation. -/
def jsMod1 (x : ℚ) : ℚ := x - (jsTrunc x : ℚ)

/-- The wrapped interpolation parameter of getColorForIteration:
t = (iteration / maxIterations + colorOffset) % 1. -/
def colorT (iteration maxIterations : ℕ) (colorOffset : ℚ) : ℚ :=
  jsMod1 ((iteration : ℚ) / (maxIterations : ℚ) + colorOffset)

/-- The floor palette index i = Math.floor(t * (palette.colors.length - 1))
computed by getColorForIteration, named so that its bounds can be stated. -/
def colorFloorIndex (iteration maxIterations numColors : ℕ) (colorOffset : ℚ) : ℤ :=
  ⌊colorT iteration maxIterations colorOffset * ((numColors : ℚ) - 1)⌋

/-- The clamped second index Math.min(i + 1, palette.colors.length - 1). -/
def colorSecondIndex (iteration maxIterations numColors : ℕ) (colorOffset : ℚ) : ℤ :=
  min (colorFloorIndex iteration maxIterations numColors colorOffset + 1)
    ((numColors : ℤ) - 1)

/-- getColorForIteration from src/color.ts: black inside the set, otherwise
linear interpolation between the entries at the floor index and the clamped
next index. -/
def getColorForIteration (iteration maxIterations : ℕ) (palette : ColorPalette)
    (colorOffset : ℚ) : RGB :=
  if iteration = maxIterations then ⟨0, 0, 0⟩
  else
    let L := palette.colors.length
    let colorIndex := colorT iteration maxIterations colorOffset * ((L : ℚ) - 1)
    let i := colorFloorIndex iteration maxIterations L colorOffset
    let f := colorIndex - (i : ℚ)
    let c1 := palette.colors.getD i.toNat ⟨0, 0, 0⟩
    let c2 := palette.colors.getD (colorSecondIndex iteration maxIterations L colorOffset).toNat ⟨0, 0, 0⟩
    ⟨jsRound ((c1.r : ℚ) + ((c2.r : ℚ) - (c1.r : ℚ)) * f),
     jsRound ((c1.g : ℚ) + ((c2.g : ℚ) - (c1.g : ℚ)) * f),
     jsRound ((c1.b : ℚ) + ((c2.b : ℚ) - (c1.b : ℚ)) * f)⟩

/-- The 8-byte PNG signature. -/
def pngSignature : List Nat := [137, 80, 78, 71, 13, 10, 26, 10]

/-- Big-endian 4-byte encoding written by DataView.setUint32(_, n, false);
the stored word is n mod 2^32. -/
def be32 (n : Nat) : List Nat :=
  [n % M32 / 2 ^ 24, n % M32 / 2 ^ 16 % 256, n % M32 / 2 ^ 8 % 256, n % M32 % 256]

/-- One bit-round of the CRC loop:
crc = (crc >>> 1) ^ (crc & 1 ? 0xedb88320 : 0). -/
def crcRound (c : Nat) : Nat :=
  (c / 2) ^^^ (if c % 2 = 1 then 0xedb88320 else 0)

/-- Eight bit-rounds (the inner for-loop of crc32). -/
def crcRounds : Nat → Nat → Nat
  | 0, c => c
  | n + 1, c => crcRounds n (crcRound c)

/-- crc32(data) from src/png.ts: start from 0xffffffff, per byte xor the byte
in and run 8 bit-rounds with the reflected polynomial 0xedb88320, finally
complement. -/
def crc32 (data : List Nat) : Nat :=
  (data.foldl (fun c byte => crcRounds 8 (c ^^^ byte)) 0xffffffff) ^^^ 0xffffffff

/-- adler32(data) from src/png.ts: a starts at 1, b at 0, both reduced mod
65521 after every byte (b uses the updated a); the result (b << 16) | a is
b * 65536 + a since the halves occupy disjoint bits. -/
def adler32 (data : List Nat) : Nat :=
  let p := data.foldl
    (fun (ab : Nat × Nat) d => ((ab.1 + d) % 65521, (ab.2 + (ab.1 + d) % 65521) % 65521))
    (1, 0)
  p.2 * 65536 + p.1

/-- createChunk(type, data) from src/png.ts: the sequential writes lay out
big-endian length, the 4 type bytes, the data, and the big-endian CRC-32
over type ++ data. -/
def createChunk (type data : List Nat) : List Nat :=
  be32 data.length ++ type ++ data ++ be32 (crc32 (type ++ data))

/-- ASCII bytes of "IHDR". -/
def typeIHDR : List Nat := [73, 72, 68, 82]

/-- ASCII bytes of "IDAT". -/
def typeIDAT : List Nat := [73, 68, 65, 84]

/-- ASCII bytes of "IEND". -/
def typeIEND : List Nat := [73, 69, 78, 68]

/-- createIHDRChunk(width, height): 13 data bytes, big-endian dimensions,
bit depth 8, color type 6, compression, filter, interlace 0. -/
def createIHDRChunk (width height : Nat) : List Nat :=
  createChunk typeIHDR (be32 width ++ be32 height ++ [8, 6, 0, 0, 0])

/-- Filtered row stream built inside createIDATChunk: per row the filter byte
0 followed by the width*4 pixel bytes read by index (missing bytes read as 0,
as in JS typed arrays). -/
def pngRawData (pixels : List Nat) (width height : Nat) : List Nat :=
  ((List.range height).map
    (fun y => 0 :: (List.range (width * 4)).map
      (fun x => pixels.getD (y * (width * 4) + x) 0))).flatten

/-- Header plus payload of stored block i of numBlocks inside
deflateUncompressed: the BFINAL byte (1 only on the last block, BTYPE 00),
little-endian LEN, the two bytes of the JS int32 one's complement ~LEN
(bit pattern 2^32 - 1 - LEN), then the block's bytes. -/
def blockBytes (data : List Nat) (numBlocks i : Nat) : List Nat :=
  let bstart := i * 65535
  let bsize := min 65535 (data.length - bstart)
  (if i = numBlocks - 1 then 1 else 0) ::
    bsize % 256 :: bsize / 256 % 256 ::
    (M32 - 1 - bsize) % 256 :: (M32 - 1 - bsize) / 256 % 256 ::
    ((data.drop bstart).take bsize)

/-- deflateUncompressed(data) from src/png.ts: zlib header bytes 0x78 0x01,
ceil(length / 65535) stored blocks, big-endian Adler-32 of the whole
input. -/
def deflateUncompressed (data : List Nat) : List Nat :=
  let numBlocks := (data.length + 65534) / 65535
  [120, 1] ++ ((List.range numBlocks).map (blockBytes data numBlocks)).flatten
    ++ be32 (adler32 data)

/-- createIDATChunk(pixels, width, height). -/
def createIDATChunk (pixels : List Nat) (width height : Nat) : List Nat :=
  createChunk typeIDAT (deflateUncompressed (pngRawData pixels width height))

/-- createIENDChunk(): an empty chunk. -/
def createIENDChunk : List Nat := createChunk typeIEND []

/-- encodePNG(pixels, width, height) from src/png.ts: signature, IHDR, IDAT,
IEND concatenated. -/
def encodePNG (pixels : List Nat) (width height : Nat) : List Nat :=
  pngSignature ++ createIHDRChunk width height
    ++ createIDATChunk pixels width height ++ createIENDChunk

/-- Claim-side chunking of a byte list into consecutive pieces of at most n
bytes (stored blocks of at most 65535 bytes; pixel rows of width*4 bytes). -/
def chunksOf (n : Nat) : List Nat → List (List Nat)
  | l =>
    if h : l.length ≤ n ∨ n = 0 then [l]
    else l.take n :: chunksOf n (l.drop n)
termination_by l => l.length
decreasing_by
  push_neg at h
  simp only [List.length_drop]
  exact Nat.sub_lt (Nat.lt_of_le_of_lt (Nat.zero_le n) h.1) (Nat.pos_of_ne_zero h.2)

/-- Claim-side frame of one stored DEFLATE block: BFINAL byte, little-endian
LEN, little-endian one's complement NLEN = 65535 - LEN, payload. -/
def specBlockFrame (last : Bool) (c : List Nat) : List Nat :=
  (if last then 1 else 0) :: c.length % 256 :: c.length / 256 % 256 ::
    (65535 - c.length) % 256 :: (65535 - c.length) / 256 % 256 :: c

/-- Claim-side framing of a list of stored blocks, marking the final one. -/
def specFrames : List (List Nat) → List Nat
  | [] => []
  | [c] => specBlockFrame true c
  | c :: c2 :: rest => specBlockFrame false c ++ specFrames (c2 :: rest)

/-- Claim-side zlib stream: header 0x78 0x01, stored-mode blocks of at most
65535 bytes each, trailing big-endian Adler-32 of the uncompressed data. -/
def specZlib (data : List Nat) : List Nat :=
  [120, 1] ++ specFrames (chunksOf 65535 data) ++ be32 (adler32 data)

/-- Claim-side row stream: the pixel bytes cut into rows, each prefixed with
filter byte 0. -/
def specRowStream (pixels : List Nat) (width : Nat) : List Nat :=
  ((chunksOf (width * 4) pixels).map (fun row => 0 :: row)).flatten

/-- Claim-side PNG layout (claim C8): signature; IHDR chunk with big-endian
32-bit width and height, bit depth 8, color type 6, zero
compression/filter/interlace bytes; IDAT chunk holding the zlib-wrapped,
filter-prefixed row stream; empty IEND chunk. -/
def specPNG (pixels : List Nat) (width height : Nat) : List Nat :=
  pngSignature
    ++ createChunk typeIHDR (be32 width ++ be32 height ++ [8, 6, 0, 0, 0])
    ++ createChunk typeIDAT (specZlib (specRowStream pixels width))
    ++ createChunk typeIEND []

theorem nextNum_lt (s : RandState) : nextNum s < M32 :=
  Nat.mod_lt _ (by norm_num [M32])

theorem nextVal_nonneg (s : RandState) : 0 ≤ nextVal s :=
  div_nonneg (Nat.cast_nonneg _) (Nat.cast_nonneg _)

theorem nextVal_lt_one (s : RandState) : nextVal s < 1 := by
  rw [nextVal, div_lt_one (by norm_num [M32])]
  exact_mod_cast nextNum_lt s

/-- Claim C1 is false as stated: at state (1, 0) the code shifts the
intermediate word by 17, not the original s0, so both the new state and the
returned value differ from the claimed formula. -/
theorem claim_C1_counterexample :
    claimNextPair ⟨1, 0⟩ ≠ (nextStep ⟨1, 0⟩, nextVal ⟨1, 0⟩) := by
  intro hEq
  exact absurd (congrArg (fun p => p.1) hEq) (by decide)

/-- Claim C1 amended: one next() call sends state (s0, s1) to (s1, s1*) with
s1* = u ^ (u >>> 17) ^ s1 ^ (s1 >>> 26) for the intermediate
u = s0 ^ (s0 << 23) (the >>> 17 shift applies to u, not to s0), and returns
((s1 + s1*) mod 2^32) / 2^32, the sum of the two NEW state words, a rational
in [0, 1). -/
theorem claim_C1_amended :
    ∀ s : RandState,
      nextStep s = ⟨s.state1, amendedNextS1 s.state0 s.state1⟩ ∧
      nextVal s =
        (((s.state1 + amendedNextS1 s.state0 s.state1) % M32 : ℕ) : ℚ) / (M32 : ℚ) ∧
      0 ≤ nextVal s ∧ nextVal s < 1 := by
  intro s
  exact ⟨rfl, rfl, nextVal_nonneg s, nextVal_lt_one s⟩

theorem juliaLoop_origin (m : ℕ) : juliaLoop 0 0 0 0 m = m := by
  induction m with
  | zero => rfl
  | succ k ih =>
    rw [juliaLoop]
    norm_num [ih]

/-- Claim C9: the julia kernel with constant 0 at the plane origin never
escapes and returns exactly maxIterations; any start with |z|^2 > 4 escapes
at iteration 0 whenever at least one iteration is allowed. -/
theorem claim_C9_julia_origin :
    ∀ (m : ℕ) (zx zy cx cy : ℚ),
      juliaIteration 0 0 0 0 m = m ∧
      (4 < zx * zx + zy * zy → 1 ≤ m → juliaIteration zx zy cx cy m = 0) := by
  intro m zx zy cx cy
  constructor
  · exact juliaLoop_origin m
  · intro hfar hm
    obtain ⟨k, rfl⟩ : ∃ k, m = k + 1 := ⟨m - 1, by omega⟩
    rw [juliaIteration, juliaLoop, if_pos hfar]

theorem claim_C9_witness :
    juliaIteration 3 0 0 0 1 = 0 ∧ juliaIteration 0 0 0 0 5 = 5 :=
  ⟨(claim_C9_julia_origin 1 3 0 0 0).2 (by norm_num) le_rfl,
   (claim_C9_julia_origin 5 0 0 0 0).1⟩

/-- Claim C5 is false as stated: taking the absolute value of BOTH update
terms changes the escape index at the point (-3/2, -3/4) with 4 iterations
(the code returns 3, the claimed kernel 4); the code only wraps the
imaginary update term. -/
theorem claim_C5_counterexample :
    claimBurningShip (-3/2) (-3/4) 4 ≠ burningShipIteration (-3/2) (-3/4) 4 := by
  norm_num [claimBurningShip, burningShipIteration, escapeLoop, burningShipLoop,
    abs_of_nonneg, abs_of_nonpos]

theorem burningShipLoop_eq_escape (px py : ℚ) :
    ∀ (m : ℕ) (zx zy : ℚ),
      burningShipLoop px py zx zy m =
        escapeLoop (fun zx zy => (zx * zx - zy * zy + px, |2 * zx * zy| + py)) zx zy m := by
  intro m
  induction m with
  | zero => intro zx zy; rfl
  | succ k ih =>
    intro zx zy
    rw [burningShipLoop, escapeLoop]
    by_cases hc : 4 < zx * zx + zy * zy
    · rw [if_pos hc, if_pos hc]
    · rw [if_neg hc, if_neg hc, ih]

theorem mandelbrotLoop_eq_escape (px py : ℚ) :
    ∀ (m : ℕ) (zx zy : ℚ),
      mandelbrotLoop px py zx zy m =
        escapeLoop (fun zx zy => (zx * zx - zy * zy + px, 2 * zx * zy + py)) zx zy m := by
  intro m
  induction m with
  | zero => intro zx zy; rfl
  | succ k ih =>
    intro zx zy
    rw [mandelbrotLoop, escapeLoop]
    by_cases hc : 4 < zx * zx + zy * zy
    · rw [if_pos hc, if_pos hc]
    · rw [if_neg hc, if_neg hc, ih]

/-- Claim C5 amended: the burning-ship kernel is the shared escape loop of
the mandelbrot kernel (same bailout |z|^2 > 4, same start z = 0, same
counting) with the single change that the IMAGINARY update term takes an
absolute value, zy <- |2 zx zy| + py; the real update term keeps its sign. -/
theorem claim_C5_amended :
    ∀ (px py : ℚ) (m : ℕ),
      burningShipIteration px py m =
        escapeLoop (fun zx zy => (zx * zx - zy * zy + px, |2 * zx * zy| + py)) 0 0 m ∧
      mandelbrotIteration px py m =
        escapeLoop (fun zx zy => (zx * zx - zy * zy + px, 2 * zx * zy + py)) 0 0 m :=
  fun px py m =>
    ⟨burningShipLoop_eq_escape px py m 0 0, mandelbrotLoop_eq_escape px py m 0 0⟩

theorem xor_self_div_eq_zero {u : ℕ} (h : u ^^^ (u / 2 ^ 17) = 0) : u = 0 := by
  have heq : u = u / 2 ^ 17 := Nat.xor_eq_zero.mp h
  by_contra hu
  have hlt : u / 2 ^ 17 < u := Nat.div_lt_self (Nat.pos_of_ne_zero hu) (by norm_num)
  omega

theorem xor_shl_eq_zero {u : ℕ} (hu : u < M32) (h : u ^^^ (u * 2 ^ 23 % M32) = 0) :
    u = 0 := by
  have heq : u = u * 2 ^ 23 % M32 := Nat.xor_eq_zero.mp h
  have hdm := Nat.div_add_mod (u * 2 ^ 23) M32
  rw [← heq] at hdm
  have hmul : u * (2 ^ 23 - 1) = M32 * (u * 2 ^ 23 / M32) := by
    have h23 : (2 : ℕ) ^ 23 = 8388608 := by norm_num
    rw [h23] at hdm ⊢
    omega
  have hdvd : M32 ∣ u * (2 ^ 23 - 1) := ⟨_, hmul⟩
  have hcop : Nat.Coprime M32 (2 ^ 23 - 1) := by norm_num [M32, Nat.Coprime]
  have : M32 ∣ u := hcop.dvd_of_dvd_mul_right hdvd
  exact Nat.eq_zero_of_dvd_of_lt this hu

theorem nextStep_good {s : RandState} (h : GoodState s) : GoodState (nextStep s) := by
  obtain ⟨h0, h1, hne⟩ := h
  have hM : M32 = 2 ^ 32 := by norm_num [M32]
  have hxlt : ∀ a b : ℕ, a < M32 → b < M32 → a ^^^ b < M32 := by
    intro a b ha hb
    rw [hM] at ha hb ⊢
    exact Nat.xor_lt_two_pow ha hb
  have hdle : ∀ a k : ℕ, a < M32 → a / 2 ^ k < M32 :=
    fun a k ha => Nat.lt_of_le_of_lt (Nat.div_le_self a (2 ^ k)) ha
  have hmod : s.state0 * 2 ^ 23 % M32 < M32 := Nat.mod_lt _ (by norm_num [M32])
  simp only [GoodState, nextStep]
  have hau : s.state0 ^^^ (s.state0 * 2 ^ 23 % M32) < M32 := hxlt _ _ h0 hmod
  have hbv : (s.state0 ^^^ (s.state0 * 2 ^ 23 % M32)) ^^^
      ((s.state0 ^^^ (s.state0 * 2 ^ 23 % M32)) / 2 ^ 17) < M32 :=
    hxlt _ _ hau (hdle _ 17 hau)
  have hcv := hxlt _ _ hbv h1
  have hdv := hxlt _ _ hcv (hdle s.state1 26 h1)
  refine ⟨h1, hdv, ?_⟩
  intro hz
  rw [RandState.mk.injEq] at hz
  obtain ⟨hz1, hz2⟩ := hz
  simp only [hz1, Nat.zero_div, Nat.xor_zero] at hz2
  have hu := xor_self_div_eq_zero hz2
  have hs0 := xor_shl_eq_zero h0 hu
  apply hne
  cases s
  rw [RandState.mk.injEq]
  exact ⟨hs0, hz1⟩

theorem warmup_good (n : ℕ) {s : RandState} (h : GoodState s) :
    GoodState (warmup n s) := by
  induction n generalizing s with
  | zero => exact h
  | succ k ih => exact ih (nextStep_good h)

theorem foldSeeds_zero_good (l : List Nat) (hl : ∀ x ∈ l, x = 0) {s : RandState}
    (h : GoodState s) : GoodState (foldSeeds l s) := by
  induction l generalizing s with
  | nil => exact h
  | cons a t ih =>
    have ha : a = 0 := hl a (by simp)
    have hstep : (⟨s.state0 ^^^ a, s.state1⟩ : RandState) = s := by
      cases s
      simp [ha]
    rw [foldSeeds, hstep]
    exact ih (fun x hx => hl x (by simp [hx])) (nextStep_good h)

theorem getD_lt_M32 (l : List Nat) (i : ℕ) (hl : ∀ x ∈ l, x < M32) :
    l.getD i 0 < M32 := by
  induction l generalizing i with
  | nil => simp [List.getD]; norm_num [M32]
  | cons a t ih =>
    cases i with
    | zero => simpa using hl a (by simp)
    | succ j =>
      simp only [List.getD_cons_succ]
      exact ih j (fun x hx => hl x (by simp [hx]))

theorem hbs_length : ∀ bytes : List Nat, (hashBytesToSeeds bytes).length = bytes.length / 4
  | b0 :: b1 :: b2 :: b3 :: rest => by
    have ih := hbs_length rest
    simp only [hashBytesToSeeds, List.length_cons, ih]
    omega
  | [] => by simp [hashBytesToSeeds]
  | [a] => by simp [hashBytesToSeeds]
  | [a, b] => by simp [hashBytesToSeeds]
  | [a, b, c] => by simp [hashBytesToSeeds]

theorem hbs_getD : ∀ (bytes : List Nat) (k : ℕ), k < bytes.length / 4 →
    (hashBytesToSeeds bytes).getD k 0 = be32word (bytes.drop (4 * k))
  | b0 :: b1 :: b2 :: b3 :: rest, 0 => by
    intro _
    rfl
  | b0 :: b1 :: b2 :: b3 :: rest, k + 1 => by
    intro hk
    have hk' : k < rest.length / 4 := by
      simp only [List.length_cons] at hk
      omega
    have ih := hbs_getD rest k hk'
    have hidx : 4 * (k + 1) = 4 * k + 4 := by ring
    calc (hashBytesToSeeds (b0 :: b1 :: b2 :: b3 :: rest)).getD (k + 1) 0
        = (hashBytesToSeeds rest).getD k 0 := rfl
      _ = be32word (rest.drop (4 * k)) := ih
      _ = be32word ((b0 :: b1 :: b2 :: b3 :: rest).drop (4 * (k + 1))) := by
          rw [hidx]
          rfl
  | [], k => by intro hk; simp only [List.length_nil] at hk; omega
  | [a], k => by intro hk; simp only [List.length_cons, List.length_nil] at hk; omega
  | [a, b], k => by intro hk; simp only [List.length_cons, List.length_nil] at hk; omega
  | [a, b, c], k => by intro hk; simp only [List.length_cons, List.length_nil] at hk; omega

theorem htn_length : ∀ hex : List Nat, (hashToNumbers hex).length = (hex.length + 7) / 8 := by
  intro hex
  induction hex using hashToNumbers.induct with
  | case1 => simp [hashToNumbers]
  | case2 d rest ih =>
    rw [hashToNumbers]
    simp only [List.length_cons, ih, List.length_drop]
    omega

theorem htn_getD : ∀ (hex : List Nat) (k : ℕ), k < (hex.length + 7) / 8 →
    (hashToNumbers hex).getD k 0 = parseHexDigits ((hex.drop (8 * k)).take 8) := by
  intro hex
  induction hex using hashToNumbers.induct with
  | case1 => intro k hk; simp only [List.length_nil] at hk; omega
  | case2 d rest ih =>
    intro k hk
    match k with
    | 0 => simp [hashToNumbers]
    | k + 1 =>
      have hlen : ((d :: rest).drop 8).length = rest.length + 1 - 8 := by
        simp [List.length_drop]
      have hk' : k < (((d :: rest).drop 8).length + 7) / 8 := by
        rw [hlen]
        simp only [List.length_cons] at hk
        omega
      have step := ih k hk'
      calc (hashToNumbers (d :: rest)).getD (k + 1) 0
          = (hashToNumbers ((d :: rest).drop 8)).getD k 0 := by rw [hashToNumbers]; rfl
        _ = parseHexDigits ((((d :: rest).drop 8).drop (8 * k)).take 8) := step
        _ = parseHexDigits (((d :: rest).drop (8 * (k + 1))).take 8) := by
            rw [List.drop_drop]
            have h8 : 8 + 8 * k = 8 * (k + 1) := by ring
            rw [h8]

/-- Claim C4 is false for the hex-string form: on a 10-hex-digit input
(8 digits a = 10 followed by 2 digits f = 15) the code produces 2 seed words,
not floor(10/8) = 1; the trailing 2-digit chunk is parsed and kept as the
value 0xff, neither dropped nor zero-padded. -/
theorem claim_C4_counterexample :
    (hashToNumbers [10, 10, 10, 10, 10, 10, 10, 10, 15, 15]).length ≠ 10 / 8 ∧
    hashToNumbers [10, 10, 10, 10, 10, 10, 10, 10, 15, 15] = [2863311530, 255] := by
  norm_num [hashToNumbers, parseHexDigits]

/-- Claim C4 amended: the raw-bytes form drops a trailing partial chunk and
yields exactly floor(n/4) big-endian 32-bit words; the hex-string form does
NOT drop a trailing partial chunk: it yields ceil(n/8) parsed chunks, the
final one parsed from the remaining (possibly fewer than 8) hex digits
as-is. -/
theorem claim_C4_amended :
    ∀ (bytes hex : List Nat),
      (hashBytesToSeeds bytes).length = bytes.length / 4 ∧
      (∀ k, k < bytes.length / 4 →
        (hashBytesToSeeds bytes).getD k 0 = be32word (bytes.drop (4 * k))) ∧
      (hashToNumbers hex).length = (hex.length + 7) / 8 ∧
      (∀ k, k < (hex.length + 7) / 8 →
        (hashToNumbers hex).getD k 0 = parseHexDigits ((hex.drop (8 * k)).take 8)) :=
  fun bytes hex =>
    ⟨hbs_length bytes, hbs_getD bytes, htn_length hex, htn_getD hex⟩

theorem claim_C4_witness :
    (hashBytesToSeeds [1, 2, 3, 4, 5]).getD 0 0 = be32word [1, 2, 3, 4, 5] ∧
    (hashToNumbers [1, 2]).getD 0 0 = parseHexDigits [1, 2] := by
  constructor
  · exact (claim_C4_amended [1, 2, 3, 4, 5] []).2.1 0 (by norm_num)
  · have h := (claim_C4_amended [] [1, 2]).2.2.2 0 (by norm_num)
    simpa using h

/-- Claim C7 is false as stated: folding the crafted seed vector
[1, 1, 0x800000, 1] drives the state to the all-zero fixed point inside the
constructor (the third seed zeroes state1 through the discarded draw, the
fourth zeroes state0 by xor), and the warm-up keeps it there. -/
theorem claim_C7_counterexample : mkState [1, 1, 8388608, 1] = ⟨0, 0⟩ := by decide

/-- Claim C7 amended: next() does preserve a non-all-zero state (the all-zero
pair is only reachable from itself), and the constructor guarantees a
non-all-zero state for every seed vector with at most 3 elements and for
every all-zero seed vector; longer crafted vectors can still zero the state
through the seed-folding xor. -/
theorem claim_C7_amended (seeds : List Nat) (hlt : ∀ x ∈ seeds, x < M32)
    (hcase : seeds.length ≤ 3 ∨ ∀ x ∈ seeds, x = 0) :
    mkState seeds ≠ ⟨0, 0⟩ ∧
    ∀ s : RandState, s.state0 < M32 → s.state1 < M32 → s ≠ ⟨0, 0⟩ →
      nextStep s ≠ ⟨0, 0⟩ := by
  constructor
  · have ha : seeds.getD 0 0 < M32 := getD_lt_M32 _ _ hlt
    have hb : seeds.getD 1 0 < M32 := getD_lt_M32 _ _ hlt
    have hF0 : FALLBACK0 < M32 := by norm_num [FALLBACK0, M32]
    have hF1 : FALLBACK1 < M32 := by norm_num [FALLBACK1, M32]
    set a := seeds.getD 0 0 with hadef
    set b := seeds.getD 1 0 with hbdef
    have hinit1 : (if b = 0 then FALLBACK1 else b) ≠ 0 := by
      split
      · norm_num [FALLBACK1]
      · assumption
    have hinitgood :
        GoodState ⟨if a = 0 then FALLBACK0 else a, if b = 0 then FALLBACK1 else b⟩ := by
      refine ⟨?_, ?_, ?_⟩
      · show (if a = 0 then FALLBACK0 else a) < M32
        split <;> assumption
      · show (if b = 0 then FALLBACK1 else b) < M32
        split <;> assumption
      · intro hz
        rw [RandState.mk.injEq] at hz
        exact hinit1 hz.2
    rw [mkState]
    rcases hcase with hlen | hzero
    · have hdrop : seeds.drop 2 = [] ∨ ∃ x, seeds.drop 2 = [x] ∧ x < M32 := by
        have hdl : (seeds.drop 2).length ≤ 1 := by
          simp only [List.length_drop]
          omega
        match hm : seeds.drop 2 with
        | [] => exact Or.inl rfl
        | [x] =>
          refine Or.inr ⟨x, rfl, hlt x ?_⟩
          exact List.drop_subset 2 seeds (hm ▸ by simp)
        | x :: y :: t => rw [hm] at hdl; simp at hdl
      rcases hdrop with hnil | ⟨x, hone, hxlt⟩
      · rw [hnil]
        exact (warmup_good 10 hinitgood).2.2
      · rw [hone]
        have hpre : GoodState (⟨(if a = 0 then FALLBACK0 else a) ^^^ x,
            if b = 0 then FALLBACK1 else b⟩ : RandState) := by
          refine ⟨?_, hinitgood.2.1, ?_⟩
          · have : M32 = 2 ^ 32 := by norm_num [M32]
            rw [this]
            exact Nat.xor_lt_two_pow (this ▸ hinitgood.1) (this ▸ hxlt)
          · intro hz
            rw [RandState.mk.injEq] at hz
            exact hinit1 hz.2
        exact (warmup_good 10 (foldSeeds_zero_good [] (by simp)
          (nextStep_good hpre))).2.2
    · have hdz : ∀ x ∈ seeds.drop 2, x = 0 :=
        fun x hx => hzero x (List.drop_subset 2 seeds hx)
      exact (warmup_good 10 (foldSeeds_zero_good _ hdz hinitgood)).2.2
  · intro s hs0 hs1 hsne
    exact (nextStep_good ⟨hs0, hs1, hsne⟩).2.2

theorem claim_C7_witness : mkState [1, 2] ≠ ⟨0, 0⟩ ∧ nextStep ⟨1, 2⟩ ≠ ⟨0, 0⟩ :=
  ⟨(claim_C7_amended [1, 2] (by decide) (Or.inl (by decide))).1,
   (claim_C7_amended [1, 2] (by decide) (Or.inl (by decide))).2 ⟨1, 2⟩
     (by decide) (by decide) (by decide)⟩

/-- Claim C3: the preset pick of generateCandidateParams uses
int(0, presetKeys.length - 1) = int(0, 9), whose floor lies in [0, 8], so of
the 10 presets the one at index 9 ("siegel") is never selectable; at the
concrete state (0, 2013265920) the draw is 0.9375... and the code still picks
index 8, where a uniform pick over all 10 presets takes index 9. -/
theorem claim_C3_siegel_unreachable :
    ∀ s : RandState,
      (juliaBasePick s).1 < 9 ∧
      JULIA_PRESETS.length = 10 ∧
      (JULIA_PRESETS.getD 9 ⟨"", 0, 0⟩).name = "siegel" ∧
      (juliaBasePick ⟨0, 2013265920⟩).1 = 8 := by
  intro s
  refine ⟨?_, by decide, by decide, ?_⟩
  · have h0 : (0 : ℚ) ≤ nextVal s := nextVal_nonneg s
    have h1 : nextVal s < 1 := nextVal_lt_one s
    have hfloor : ⌊(0 : ℚ) + nextVal s * (((JULIA_PRESETS.length : ℚ) - 1) - 0)⌋ < 9 := by
      apply Int.floor_lt.mpr
      push_cast
      norm_num [JULIA_PRESETS]
      nlinarith
    have hnn : (0 : ℤ) ≤ ⌊(0 : ℚ) + nextVal s * (((JULIA_PRESETS.length : ℚ) - 1) - 0)⌋ := by
      apply Int.floor_nonneg.mpr
      have h9 : (0 : ℚ) ≤ ((JULIA_PRESETS.length : ℚ) - 1) - 0 := by
        norm_num [JULIA_PRESETS]
      simpa using mul_nonneg h0 h9
    simp only [juliaBasePick, intRand, rangeRand]
    omega
  · have hx : ((2013265920 : ℕ) ^^^ 30) = 2013265950 := by decide
    norm_num [juliaBasePick, intRand, rangeRand, nextVal, nextNum, nextStep, M32,
      JULIA_PRESETS, hx]
    rfl

theorem jsMod1_fract {x : ℚ} (hx : 0 ≤ x) : jsMod1 x = Int.fract x := by
  rw [jsMod1, jsTrunc, if_pos hx, Int.fract]

/-- Claim C10: under a non-empty palette, positive maxIterations, an
iteration strictly below the cap and a colorOffset in [0, 1), the floor
index and the clamped second index computed by getColorForIteration both lie
in [0, length - 1], so every palette access is in bounds. -/
theorem claim_C10_palette_index_bounds (palette : ColorPalette)
    (maxIterations iteration : ℕ) (colorOffset : ℚ)
    (hne : palette.colors ≠ []) (hmax : 0 < maxIterations)
    (hit : iteration < maxIterations) (hoff0 : 0 ≤ colorOffset)
    (hoff1 : colorOffset < 1) :
    0 ≤ colorFloorIndex iteration maxIterations palette.colors.length colorOffset ∧
    colorFloorIndex iteration maxIterations palette.colors.length colorOffset ≤
      (palette.colors.length : ℤ) - 1 ∧
    0 ≤ colorSecondIndex iteration maxIterations palette.colors.length colorOffset ∧
    colorSecondIndex iteration maxIterations palette.colors.length colorOffset ≤
      (palette.colors.length : ℤ) - 1 := by
  set L := palette.colors.length with hLdef
  have hL1 : 1 ≤ L := List.length_pos.mpr hne
  have hLq : (0 : ℚ) ≤ (L : ℚ) - 1 := by
    have : (1 : ℚ) ≤ (L : ℚ) := by exact_mod_cast hL1
    linarith
  have hxnn : (0 : ℚ) ≤ (iteration : ℚ) / (maxIterations : ℚ) + colorOffset := by
    have := div_nonneg (Nat.cast_nonneg (α := ℚ) iteration)
      (Nat.cast_nonneg (α := ℚ) maxIterations)
    linarith
  have ht : colorT iteration maxIterations colorOffset =
      Int.fract ((iteration : ℚ) / (maxIterations : ℚ) + colorOffset) := by
    rw [colorT, jsMod1_fract hxnn]
  have ht0 : 0 ≤ colorT iteration maxIterations colorOffset := by
    rw [ht]; exact Int.fract_nonneg _
  have ht1 : colorT iteration maxIterations colorOffset < 1 := by
    rw [ht]; exact Int.fract_lt_one _
  have hci0 : (0 : ℚ) ≤ colorT iteration maxIterations colorOffset * ((L : ℚ) - 1) :=
    mul_nonneg ht0 hLq
  have hciL : colorT iteration maxIterations colorOffset * ((L : ℚ) - 1) ≤ (L : ℚ) - 1 :=
    mul_le_of_le_one_left hLq (le_of_lt ht1)
  have hfl0 : 0 ≤ colorFloorIndex iteration maxIterations L colorOffset := by
    rw [colorFloorIndex]
    exact Int.floor_nonneg.mpr hci0
  have hflL : colorFloorIndex iteration maxIterations L colorOffset ≤ (L : ℤ) - 1 := by
    rw [colorFloorIndex]
    have hcast : ((L : ℚ) - 1) = (((L : ℤ) - 1 : ℤ) : ℚ) := by push_cast; ring
    calc ⌊colorT iteration maxIterations colorOffset * ((L : ℚ) - 1)⌋
        ≤ ⌊((L : ℚ) - 1)⌋ := Int.floor_le_floor hciL
      _ = (L : ℤ) - 1 := by rw [hcast, Int.floor_intCast]
  refine ⟨hfl0, hflL, ?_, ?_⟩
  · rw [colorSecondIndex]
    omega
  · rw [colorSecondIndex]
    omega

theorem claim_C10_witness :
    0 ≤ colorFloorIndex 0 1 (ColorPalette.mk [⟨1, 2, 3⟩] ⟨0, 0, 0⟩).colors.length 0 ∧
    colorFloorIndex 0 1 (ColorPalette.mk [⟨1, 2, 3⟩] ⟨0, 0, 0⟩).colors.length 0 ≤
      ((ColorPalette.mk [⟨1, 2, 3⟩] ⟨0, 0, 0⟩).colors.length : ℤ) - 1 ∧
    0 ≤ colorSecondIndex 0 1 (ColorPalette.mk [⟨1, 2, 3⟩] ⟨0, 0, 0⟩).colors.length 0 ∧
    colorSecondIndex 0 1 (ColorPalette.mk [⟨1, 2, 3⟩] ⟨0, 0, 0⟩).colors.length 0 ≤
      ((ColorPalette.mk [⟨1, 2, 3⟩] ⟨0, 0, 0⟩).colors.length : ℤ) - 1 :=
  claim_C10_palette_index_bounds (ColorPalette.mk [⟨1, 2, 3⟩] ⟨0, 0, 0⟩) 1 0 0
    (by simp) (by norm_num) (by norm_num) (by norm_num) (by norm_num)

theorem fillRow_length (f : ℕ → ℕ) (size : ℕ) :
    ∀ (n : ℕ) (row : List ℕ), (fillRow f size n row).length = row.length := by
  intro n
  induction n with
  | zero => intro row; rfl
  | succ k ih => intro row; simp [fillRow, ih]

theorem fillRow_getD (f : ℕ → ℕ) (size : ℕ) :
    ∀ (n : ℕ) (row : List ℕ), row.length = size → n ≤ (size + 1) / 2 →
      ∀ j, j < size →
        (fillRow f size n row).getD j 0 =
          if j < n then f j
          else if size - n ≤ j then f (size - 1 - j)
          else row.getD j 0 := by
  intro n
  induction n with
  | zero =>
    intro row hrow _ j hj
    rw [if_neg (by omega), if_neg (by omega)]
    rfl
  | succ k ih =>
    intro row hrow hk j hj
    have hksize : k < size := by omega
    have hlenF : (fillRow f size k row).length = size := by rw [fillRow_length, hrow]
    have hlenS : ((fillRow f size k row).set k (f k)).length = size := by
      simp [hlenF]
    rw [fillRow]
    by_cases hjm : j = size - 1 - k
    · subst hjm
      rw [List.getD_eq_getElem?_getD,
        List.getElem?_set_eq_of_lt _ (by omega : size - 1 - k <
          ((fillRow f size k row).set k (f k)).length)]
      simp only [Option.getD_some]
      split_ifs <;> first | (congr 1; omega) | (exfalso; omega)
    · by_cases hjk : j = k
      · rw [hjk]
        rw [List.getD_eq_getElem?_getD,
          List.getElem?_set_ne (by omega : size - 1 - k ≠ k),
          List.getElem?_set_eq_of_lt _ (by omega : k < (fillRow f size k row).length)]
        simp only [Option.getD_some]
        rw [if_pos (by omega)]
      · have hL : (((fillRow f size k row).set k (f k)).set (size - 1 - k) (f k)).getD j 0
            = (fillRow f size k row).getD j 0 := by
          rw [List.getD_eq_getElem?_getD,
            List.getElem?_set_ne (by omega : size - 1 - k ≠ j),
            List.getElem?_set_ne (by omega : k ≠ j),
            ← List.getD_eq_getElem?_getD]
        rw [hL, ih row hrow (by omega) j hj]
        split_ifs <;> first | rfl | (congr 1; omega) | (exfalso; omega)

theorem fillRow_symm (f : ℕ → ℕ) (size : ℕ) (j : ℕ) (hj : j < size) :
    (fillRow f size ((size + 1) / 2) (List.replicate size 0)).getD j 0 =
      (fillRow f size ((size + 1) / 2) (List.replicate size 0)).getD (size - 1 - j) 0 := by
  have hrep : (List.replicate size (0 : ℕ)).length = size := by simp
  have h1 := fillRow_getD f size ((size + 1) / 2) (List.replicate size 0) hrep le_rfl j hj
  have h2 := fillRow_getD f size ((size + 1) / 2) (List.replicate size 0) hrep le_rfl
    (size - 1 - j) (by omega)
  rw [h1, h2]
  split_ifs <;> first | rfl | (congr 1; omega) | (exfalso; omega)

/-- Claim C6: for every grid size at least 1, every family and every
parameter record, the rasterized grid is exactly mirror-symmetric about the
vertical center line. -/
theorem claim_C6_mirror_symmetric (size : ℕ) (params : FractalParams) (y x : ℕ)
    (hsize : 1 ≤ size) (hy : y < size) (hx : x < size) :
    ((generateFractalGrid size params).getD y []).getD x 0 =
      ((generateFractalGrid size params).getD y []).getD (size - 1 - x) 0 := by
  have hrow : (generateFractalGrid size params).getD y [] =
      fillRow (fun x => iterationsFor params size x y) size ((size + 1) / 2)
        (List.replicate size 0) := by
    rw [generateFractalGrid, List.getD_eq_getElem?_getD, List.getElem?_map,
      List.getElem?_range hy]
    rfl
  rw [hrow]
  exact fillRow_symm _ size x hx

theorem claim_C6_witness :
    ((generateFractalGrid 2 ⟨0, 0, 2, 0, 0, .julia⟩).getD 0 []).getD 0 0 =
      ((generateFractalGrid 2 ⟨0, 0, 2, 0, 0, .julia⟩).getD 0 []).getD (2 - 1 - 0) 0 :=
  claim_C6_mirror_symmetric 2 ⟨0, 0, 2, 0, 0, .julia⟩ 0 0 (by norm_num) (by norm_num)
    (by norm_num)

theorem tryAttempts_spec (ft : FractalType) :
    ∀ (n : ℕ) (s : RandState),
      (∃ i, i < n ∧ passesQuality (candidateAt ft i s) = true ∧
        (∀ j, j < i → passesQuality (candidateAt ft j s) = false) ∧
        tryAttempts ft n s = (candidateAt ft i s, attemptState ft (i + 1) s)) ∨
      ((∀ i, i < n → passesQuality (candidateAt ft i s) = false) ∧
        tryAttempts ft n s = generateCandidateParams ft (attemptState ft n s)) := by
  intro n
  induction n with
  | zero =>
    intro s
    right
    exact ⟨fun i hi => absurd hi (by omega), rfl⟩
  | succ m ih =>
    intro s
    by_cases hq : passesQuality (generateCandidateParams ft s).1 = true
    · left
      refine ⟨0, by omega, hq, fun j hj => absurd hj (by omega), ?_⟩
      rw [tryAttempts, if_pos hq]
      rfl
    · have hq0 : passesQuality (candidateAt ft 0 s) = false := by
        simpa using hq
      rcases ih (candStep ft s) with ⟨i, hi, hpass, hprev, heq⟩ | ⟨hall, heq⟩
      · left
        refine ⟨i + 1, by omega, hpass, ?_, ?_⟩
        · intro j hj
          match j with
          | 0 => exact hq0
          | j + 1 => exact hprev j (by omega)
        · rw [tryAttempts, if_neg hq]
          exact heq
      · right
        refine ⟨?_, ?_⟩
        · intro i hi
          match i with
          | 0 => exact hq0
          | i + 1 => exact hall i (by omega)
        · rw [tryAttempts, if_neg hq]
          exact heq

/-- Claim C2: with no explicit constant, no valid preset and no skip flag,
generateFractalParams runs the 10-attempt loop; when every one of the 10
candidates fails the two thresholds the function does NOT return the stored
10th candidate (candidateAt ft 9 s): it calls generateCandidateParams once
more and returns an 11th, freshly drawn candidate
candidateAt ft 10 s = generateCandidateParams at the post-loop state, exactly
as the fallback line of the source does despite its comment. -/
theorem claim_C2_fallback_regenerates (opts : FractalGenOptions) (s : RandState)
    (hc : opts.c = none) (hp : presetLookup opts.preset = none)
    (hs : opts.skipEntropyCheck = false) :
    generateFractalParams opts s = tryAttempts (opts.fractalType.getD .julia) 10 s ∧
    ((∃ i, i < 10 ∧
        passesQuality (candidateAt (opts.fractalType.getD .julia) i s) = true ∧
        (generateFractalParams opts s).1 =
          candidateAt (opts.fractalType.getD .julia) i s) ∨
      ((∀ i, i < 10 →
          passesQuality (candidateAt (opts.fractalType.getD .julia) i s) = false) ∧
        (generateFractalParams opts s).1 =
          candidateAt (opts.fractalType.getD .julia) 10 s)) := by
  set ft := opts.fractalType.getD .julia with hft
  have hmain : generateFractalParams opts s = tryAttempts ft 10 s := by
    rw [generateFractalParams, hc, hp, hs]
    simp
  refine ⟨hmain, ?_⟩
  rcases tryAttempts_spec ft 10 s with ⟨i, hi, hpass, _, heq⟩ | ⟨hall, heq⟩
  · left
    exact ⟨i, hi, hpass, by rw [hmain, heq]⟩
  · right
    refine ⟨hall, ?_⟩
    rw [hmain, heq]
    rfl

theorem claim_C2_witness :
    generateFractalParams ⟨some .julia, none, none, false⟩ ⟨1, 2⟩ =
        tryAttempts .julia 10 ⟨1, 2⟩ ∧
      ((∃ i, i < 10 ∧ passesQuality (candidateAt .julia i ⟨1, 2⟩) = true ∧
          (generateFractalParams ⟨some .julia, none, none, false⟩ ⟨1, 2⟩).1 =
            candidateAt .julia i ⟨1, 2⟩) ∨
        ((∀ i, i < 10 → passesQuality (candidateAt .julia i ⟨1, 2⟩) = false) ∧
          (generateFractalParams ⟨some .julia, none, none, false⟩ ⟨1, 2⟩).1 =
            candidateAt .julia 10 ⟨1, 2⟩)) :=
  claim_C2_fallback_regenerates ⟨some .julia, none, none, false⟩ ⟨1, 2⟩ rfl rfl rfl

theorem getD_drop (l : List ℕ) (n i : ℕ) : (l.drop n).getD i 0 = l.getD (n + i) 0 := by
  rw [List.getD_eq_getElem?_getD, List.getD_eq_getElem?_getD, List.getElem?_drop]

theorem rangeMap_getD_eq_take (l : List ℕ) :
    ∀ n, n ≤ l.length → (List.range n).map (fun x => l.getD x 0) = l.take n := by
  intro n
  induction n with
  | zero => intro _; simp
  | succ k ih =>
    intro hk
    rw [List.range_succ, List.map_append, ih (by omega), List.take_succ]
    simp [List.getElem?_eq_getElem (by omega : k < l.length),
      List.getD_eq_getElem?_getD]

theorem pngRawData_eq_rows :
    ∀ (h : Nat) (pixels : List Nat) (w : Nat), 1 ≤ w → 1 ≤ h →
      pixels.length = h * (w * 4) →
      pngRawData pixels w h = specRowStream pixels w := by
  intro h
  induction h with
  | zero => intro pixels w _ hh; omega
  | succ g ih =>
    intro pixels w hw _ hlen
    have hexp : (g + 1) * (w * 4) = g * (w * 4) + w * 4 := by ring
    have hrow1 : (List.range (w * 4)).map (fun x => pixels.getD (0 * (w * 4) + x) 0)
        = pixels.take (w * 4) := by
      have hb := rangeMap_getD_eq_take pixels (w * 4) (by omega)
      rw [← hb]
      apply List.map_congr_left
      intro x _
      rw [show 0 * (w * 4) + x = x from by ring]
    by_cases hg : g = 0
    · subst hg
      rw [pngRawData, specRowStream, chunksOf]
      rw [dif_pos (Or.inl (by omega))]
      rw [show (1 : ℕ) = 0 + 1 from rfl, List.range_succ, List.range_zero]
      simp only [List.nil_append, List.map_cons, List.map_nil, List.flatten_cons,
        List.flatten_nil, List.append_nil]
      rw [hrow1, List.take_of_length_le (by omega)]
    · have hlong : pixels.length > w * 4 := by
        have h2 : 1 ≤ g := by omega
        have : g * (w * 4) ≥ 1 * (w * 4) := Nat.mul_le_mul_right _ h2
        omega
      rw [pngRawData, specRowStream, chunksOf]
      rw [dif_neg (by push_neg; constructor <;> omega)]
      rw [List.range_succ_eq_map]
      simp only [List.map_cons, List.map_map, List.flatten_cons]
      have lhs_eq : (List.map ((fun y => 0 :: List.map
          (fun x => pixels.getD (y * (w * 4) + x) 0) (List.range (w * 4))) ∘ Nat.succ)
            (List.range g)).flatten = pngRawData (pixels.drop (w * 4)) w g := by
        rw [pngRawData]
        congr 1
        apply List.map_congr_left
        intro y _
        simp only [Function.comp_apply]
        congr 1
        apply List.map_congr_left
        intro x _
        rw [getD_drop]
        congr 1
        simp only [Nat.succ_eq_add_one]
        ring
      rw [lhs_eq, ih (pixels.drop (w * 4)) w hw (by omega)
        (by simp only [List.length_drop]; omega), specRowStream]
      rw [hrow1]

theorem chunksOf_ne_nil (n : Nat) (l : List Nat) : chunksOf n l ≠ [] := by
  rw [chunksOf]
  split
  · exact List.cons_ne_nil _ _
  · exact List.cons_ne_nil _ _

theorem chunksOf_length_le (n : Nat) (hn : 0 < n) :
    ∀ l, ∀ b ∈ chunksOf n l, b.length ≤ n := by
  intro l
  induction l using chunksOf.induct n with
  | case1 x l2 hcond =>
    intro b hb
    rw [chunksOf, dif_pos hcond] at hb
    rcases List.mem_singleton.mp hb with rfl
    rcases hcond with hc | hc
    · exact hc
    · omega
  | case2 x l2 hcond ih =>
    intro b hb
    rw [chunksOf, dif_neg hcond] at hb
    rcases List.mem_cons.mp hb with rfl | hb2
    · rw [List.length_take]
      exact Nat.min_le_left _ _
    · exact ih b hb2

theorem blocks_eq :
    ∀ (data : List Nat), data ≠ [] →
      ((List.range ((data.length + 65534) / 65535)).map
        (blockBytes data ((data.length + 65534) / 65535))).flatten =
        specFrames (chunksOf 65535 data) := by
  intro data
  induction data using chunksOf.induct 65535 with
  | case1 x l2 hcond =>
    intro hne
    have hlen : x.length ≤ 65535 := by
      rcases hcond with hc | hc
      · exact hc
      · omega
    have hpos : 0 < x.length := List.length_pos.mpr hne
    have hnb : (x.length + 65534) / 65535 = 1 := by omega
    rw [hnb, show List.range 1 = [0] from rfl]
    rw [List.map_cons, List.map_nil, List.flatten_cons, List.flatten_nil,
      List.append_nil]
    rw [chunksOf, dif_pos hcond]
    rw [blockBytes, specFrames, specBlockFrame]
    simp only [Nat.zero_mul, Nat.sub_zero, List.drop_zero]
    have hmin : min 65535 x.length = x.length := min_eq_right hlen
    rw [hmin, List.take_of_length_le le_rfl]
    have h1 : (M32 - 1 - x.length) % 256 = (65535 - x.length) % 256 := by
      norm_num [M32]
      omega
    have h2 : (M32 - 1 - x.length) / 256 % 256 = (65535 - x.length) / 256 % 256 := by
      norm_num [M32]
      omega
    rw [h1, h2]
  | case2 x l2 hcond ih =>
    intro hne
    push_neg at hcond
    have hlong : 65535 < x.length := hcond.1
    set d := x.drop 65535 with hd
    have hdlen : d.length = x.length - 65535 := by simp [hd]
    have hdne : d ≠ [] := by
      apply List.ne_nil_of_length_pos
      omega
    set k := ((x.length - 65535) + 65534) / 65535 with hkdef
    have hk1 : 1 ≤ k := by omega
    have hnb : (x.length + 65534) / 65535 = k + 1 := by omega
    have hknb : (d.length + 65534) / 65535 = k := by omega
    rw [hnb, List.range_succ_eq_map, List.map_cons, List.flatten_cons, List.map_map]
    have hhead : blockBytes x (k + 1) 0 = specBlockFrame false (x.take 65535) := by
      rw [blockBytes, specBlockFrame]
      simp only [Nat.zero_mul, Nat.sub_zero, List.drop_zero]
      have hmin : min 65535 x.length = 65535 := min_eq_left (by omega)
      have htl : (x.take 65535).length = 65535 := by
        simp only [List.length_take]
        omega
      rw [hmin, htl, if_neg (by omega)]
      norm_num [M32]
    have htail : List.map (blockBytes x (k + 1) ∘ Nat.succ) (List.range k)
        = List.map (blockBytes d k) (List.range k) := by
      apply List.map_congr_left
      intro i _
      simp only [Function.comp_apply]
      rw [blockBytes, blockBytes]
      have hsz : min 65535 (x.length - Nat.succ i * 65535)
          = min 65535 (d.length - i * 65535) := by
        have hsucc : Nat.succ i * 65535 = i * 65535 + 65535 := by
          simp only [Nat.succ_eq_add_one]
          ring
        omega
      have hdrop : x.drop (Nat.succ i * 65535) = d.drop (i * 65535) := by
        rw [hd, List.drop_drop]
        congr 1
        omega
      rw [hsz, hdrop]
      by_cases hik : i = k - 1
      · rw [if_pos (by omega), if_pos hik]
      · rw [if_neg (by omega), if_neg hik]
    rw [hhead, htail]
    have hih := ih hdne
    rw [hknb] at hih
    rw [hih]
    have hrhs : chunksOf 65535 x = x.take 65535 :: chunksOf 65535 d := by
      conv_lhs => rw [chunksOf]
      rw [dif_neg (by push_neg; exact ⟨hlong, by norm_num⟩)]
    rw [hrhs]
    obtain ⟨c2, cs, hrest⟩ : ∃ c2 cs, chunksOf 65535 d = c2 :: cs := by
      cases hch : chunksOf 65535 d with
      | nil => exact absurd hch (chunksOf_ne_nil _ _)
      | cons c2 cs => exact ⟨c2, cs, rfl⟩
    rw [hrest]
    rfl

theorem deflate_eq_specZlib (data : List Nat) (hne : data ≠ []) :
    deflateUncompressed data = specZlib data := by
  simp only [deflateUncompressed, specZlib]
  rw [blocks_eq data hne]

/-- Claim C8: for every pixel buffer of positive width and height, the PNG
encoder output is the signature, an IHDR chunk (big-endian dimensions, bit
depth 8, color type 6, zero compression/filter/interlace), an IDAT chunk
holding a zlib stream (header 0x78 0x01, trailing big-endian Adler-32)
wrapping stored-mode blocks of at most 65535 bytes around the
filter-0-prefixed rows, and an empty IEND chunk; every chunk is framed as
big-endian length, 4-byte type, data, and CRC-32 over type ++ data. -/
theorem claim_C8_png_structure (pixels : List Nat) (w h : Nat)
    (hw : 1 ≤ w) (hh : 1 ≤ h) (hlen : pixels.length = w * h * 4) :
    encodePNG pixels w h = specPNG pixels w h ∧
    ∀ b ∈ chunksOf 65535 (specRowStream pixels w), b.length ≤ 65535 := by
  have hlen2 : pixels.length = h * (w * 4) := by rw [hlen]; ring
  have hrows := pngRawData_eq_rows h pixels w hw hh hlen2
  constructor
  · have hne2 : specRowStream pixels w ≠ [] := by
      obtain ⟨c2, cs, hch⟩ : ∃ c2 cs, chunksOf (w * 4) pixels = c2 :: cs := by
        cases hch : chunksOf (w * 4) pixels with
        | nil => exact absurd hch (chunksOf_ne_nil _ _)
        | cons c2 cs => exact ⟨c2, cs, rfl⟩
      rw [specRowStream, hch]
      simp
    rw [encodePNG, specPNG, createIHDRChunk, createIDATChunk, createIENDChunk,
      hrows, deflate_eq_specZlib _ hne2]
  · intro b hb
    exact chunksOf_length_le 65535 (by norm_num) _ b hb

theorem claim_C8_witness :
    encodePNG [1, 2, 3, 4] 1 1 = specPNG [1, 2, 3, 4] 1 1 ∧
    ∀ b ∈ chunksOf 65535 (specRowStream [1, 2, 3, 4] 1), b.length ≤ 65535 :=
  claim_C8_png_structure [1, 2, 3, 4] 1 1 (by norm_num) (by norm_num) (by norm_num)

end Fracticons
